import Mathlib

/-!
Verification of the BioMINTech inventory tracker core
(`src/lib/inventory.ts`): status derivation, the filter/sort query
pipeline, record-store mutations and the realtime merge handlers,
shallowly embedded in Lean 4.

Conventions of the embedding:
* TypeScript `number` fields (`id`, `qty`) are `Int`; timestamps
  (ISO strings compared through `new Date(...).getTime()`) are the
  instant itself, an `Option Nat` (`none` = field absent).
* The union type `"ปกติ" | "ใกล้หมด" | "หมด"` becomes the inductive
  `Status`; the filter value `Status | "ทั้งหมด"` becomes
  `Option Status` (`none` = `"ทั้งหมด"`).
* `Array.prototype.sort` with a comparator `cmp` (stable since
  ES2019) is `List.mergeSort` with `le a b := cmp a b ≤ 0`.
* `localeCompare(_, "th")` (ICU collation) is an uninterpreted
  comparator parameter `strCmp`; nothing proved here depends on the
  collation order itself.
-/

namespace Inventory

/-- The tri-valued stock status, `"ปกติ" | "ใกล้หมด" | "หมด"` in the
source. -/
inductive Status where
  | normal
  | low
  | empty
deriving DecidableEq

/-- The Thai display string of a status, as it appears in the source
literals (used by the string-keyed sort comparator). -/
def statusText : Status → String
  | .normal => "ปกติ"
  | .low => "ใกล้หมด"
  | .empty => "หมด"

/-- The `Item` record type of `inventory.ts`. -/
structure Item where
  id : Int
  category : String
  name : String
  qty : Int
  unit : String
  status : Status
  location : String
  checkedBy : Option (List String)
  lastUpdated : Option Nat
deriving DecidableEq

/-- The function `computeStatus(qty, low)` from `inventory.ts`:
`qty <= 0` → หมด, `qty <= low` → ใกล้หมด, else ปกติ. -/
def computeStatus (qty low : Int) : Status :=
  if qty ≤ 0 then .empty
  else if qty ≤ low then .low
  else .normal

/-- C1: for every integer quantity `q` and threshold `t ≥ 1`,
`computeStatus` returns Empty (หมด) when `q ≤ 0`, Low (ใกล้หมด) when
`0 < q ≤ t`, Normal (ปกติ) when `q > t`; in particular
`computeStatus 0 t` = Empty, `computeStatus t t` = Low and
`computeStatus (t+1) t` = Normal. Being a Lean function, it is pure
and total. -/
theorem computeStatus_spec (q t : Int) (ht : 1 ≤ t) :
    (q ≤ 0 → computeStatus q t = .empty)
    ∧ (0 < q → q ≤ t → computeStatus q t = .low)
    ∧ (t < q → computeStatus q t = .normal)
    ∧ computeStatus 0 t = .empty
    ∧ computeStatus t t = .low
    ∧ computeStatus (t + 1) t = .normal := by
  unfold computeStatus
  refine ⟨fun h => by simp [h], fun h1 h2 => ?_, fun h => ?_, by simp, ?_, ?_⟩
  · rw [if_neg (by omega), if_pos h2]
  · rw [if_neg (by omega), if_neg (by omega)]
  · rw [if_neg (by omega), if_pos le_rfl]
  · rw [if_neg (by omega), if_neg (by omega)]

/-- Witness for C1 at `q = 5`, `t = 2`. -/
theorem computeStatus_spec_witness :
    (1 : Int) ≤ 2
    ∧ (((5 : Int) ≤ 0 → computeStatus 5 2 = .empty)
        ∧ ((0 : Int) < 5 → (5 : Int) ≤ 2 → computeStatus 5 2 = .low)
        ∧ ((2 : Int) < 5 → computeStatus 5 2 = .normal)
        ∧ computeStatus 0 2 = .empty
        ∧ computeStatus 2 2 = .low
        ∧ computeStatus (2 + 1) 2 = .normal) :=
  ⟨by decide, computeStatus_spec 5 2 (by decide)⟩

/-- The store update performed by `adjustQty(id, delta)` (the
`setItems(prev => prev.map(...))` functional update): on the matching
record, `qty := Math.max(0, qty + delta)`, status recomputed by
`computeStatus` when auto-status is on, `lastUpdated := nowISO()`. -/
def adjustQty (items : List Item) (id delta : Int) (autoStatus : Bool)
    (lowThreshold : Int) (now : Nat) : List Item :=
  items.map fun i =>
    if i.id = id then
      let newQty := max 0 (i.qty + delta)
      let newStatus := if autoStatus then computeStatus newQty lowThreshold else i.status
      { i with qty := newQty, status := newStatus, lastUpdated := some now }
    else i

/-- The helper `mergeOne(prev, it)` from `inventory.ts`: replace the record with
the same id if one exists, otherwise append the incoming record. -/
def mergeOne (prev : List Item) (it : Item) : List Item :=
  if prev.any (fun x => decide (x.id = it.id)) then
    prev.map fun x => if x.id = it.id then it else x
  else prev ++ [it]

/-- A row of the remote `items` table, as delivered in a realtime
change-event payload (`checked_by` and `last_updated` are nullable). -/
structure Row where
  id : Int
  category : String
  name : String
  qty : Int
  unit : String
  status : Status
  location : String
  checked_by : Option (List String)
  last_updated : Option Nat
deriving DecidableEq

/-- The helper `rowToItem(r)` from `inventory.ts`: `checked_by ?? []` becomes the
checked-by list, a null `last_updated` becomes an absent timestamp.
No clamping or validation is applied to `qty`. -/
def rowToItem (r : Row) : Item :=
  { id := r.id, category := r.category, name := r.name, qty := r.qty,
    unit := r.unit, status := r.status, location := r.location,
    checkedBy := some (r.checked_by.getD []), lastUpdated := r.last_updated }

/-- The store update of `remove(id)` and of the realtime items DELETE
handler: `prev.filter(i => i.id !== id)`. -/
def removeItem (items : List Item) (id : Int) : List Item :=
  items.filter fun i => decide ¬(i.id = id)

/-- The store update of `confirmQuickCheck()`: the target record gets
the freshly selected checker list and a fresh timestamp, and replaces
the record with its id. -/
def confirmQuickCheck (items : List Item) (target : Item)
    (list : List String) (now : Nat) : List Item :=
  let updated := { target with checkedBy := some list, lastUpdated := some now }
  items.map fun i => if i.id = updated.id then updated else i

/-- Pointwise description of `adjustQty`: the entry at position `k`
of the updated store, as a function of the entry at position `k` of
the old store. Shared helper for the claims about `adjustQty`. -/
theorem adjustQty_getElem (items : List Item) (id delta : Int) (autoStatus : Bool)
    (low : Int) (now : Nat) (k : Nat) (src : Item)
    (hk : items[k]? = some src) :
    (adjustQty items id delta autoStatus low now)[k]?
      = some (if src.id = id then
          { src with
            qty := max 0 (src.qty + delta)
            status := (if autoStatus then computeStatus (max 0 (src.qty + delta)) low
              else src.status)
            lastUpdated := some now }
        else src) := by
  unfold adjustQty
  rw [List.getElem?_map, hk]
  by_cases h : src.id = id <;> simp [h]

/-- C2: a quantity adjustment maps the record at any position `k`
whose id matches to quantity `max 0 (qty + delta)`, with status
recomputed by `computeStatus` at the current threshold exactly when
auto-status is enabled, and a refreshed `lastUpdated`; a record at
quantity 0 adjusted by −1 stays at 0; records with a different id are
untouched. -/
theorem adjustQty_spec (items : List Item) (id delta : Int) (autoStatus : Bool)
    (low : Int) (now : Nat) (k : Nat) (src : Item)
    (hk : items[k]? = some src) :
    ∃ dst, (adjustQty items id delta autoStatus low now)[k]? = some dst
      ∧ (src.id = id →
          dst.qty = max 0 (src.qty + delta)
          ∧ dst.status = (if autoStatus then computeStatus (max 0 (src.qty + delta)) low
              else src.status)
          ∧ dst.lastUpdated = some now
          ∧ (src.qty = 0 → delta = -1 → dst.qty = 0))
      ∧ (src.id ≠ id → dst = src) := by
  have hk' := adjustQty_getElem items id delta autoStatus low now k src hk
  by_cases h : src.id = id
  · rw [hk', if_pos h]
    exact ⟨_, rfl, fun _ => ⟨rfl, rfl, rfl, fun h0 hd => by
      show max 0 (src.qty + delta) = 0
      omega⟩, fun hne => absurd h hne⟩
  · rw [hk', if_neg h]
    exact ⟨src, rfl, fun he => absurd he h, fun _ => rfl⟩

/-- Witness for C2: a two-record store, adjusting id 1 (at quantity 0)
by −1. -/
theorem adjustQty_spec_witness :
    ([⟨1, "c", "n", 0, "u", .empty, "l", none, none⟩,
      ⟨2, "c", "m", 5, "u", .normal, "l", none, none⟩] : List Item)[0]?
        = some ⟨1, "c", "n", 0, "u", .empty, "l", none, none⟩
    ∧ ∃ dst,
        (adjustQty [⟨1, "c", "n", 0, "u", .empty, "l", none, none⟩,
          ⟨2, "c", "m", 5, "u", .normal, "l", none, none⟩] 1 (-1) true 1 100)[0]?
            = some dst
        ∧ ((⟨1, "c", "n", 0, "u", .empty, "l", none, none⟩ : Item).id = 1 →
            dst.qty = max 0 ((⟨1, "c", "n", 0, "u", .empty, "l", none, none⟩ : Item).qty + (-1))
            ∧ dst.status = (if true then computeStatus
                (max 0 ((⟨1, "c", "n", 0, "u", .empty, "l", none, none⟩ : Item).qty + (-1))) 1
                else (⟨1, "c", "n", 0, "u", .empty, "l", none, none⟩ : Item).status)
            ∧ dst.lastUpdated = some 100
            ∧ ((⟨1, "c", "n", 0, "u", .empty, "l", none, none⟩ : Item).qty = 0 →
                (-1 : Int) = -1 → dst.qty = 0))
        ∧ ((⟨1, "c", "n", 0, "u", .empty, "l", none, none⟩ : Item).id ≠ 1 →
            dst = ⟨1, "c", "n", 0, "u", .empty, "l", none, none⟩) :=
  ⟨by decide, adjustQty_spec _ 1 (-1) true 1 100 0 _ (by decide)⟩

/-- Applying the replace-or-append lambda of `mergeOne` twice is the
same as applying it once. -/
theorem mergeOne_replace_idem (x it : Item) :
    (if (if x.id = it.id then it else x).id = it.id then it
      else (if x.id = it.id then it else x))
      = (if x.id = it.id then it else x) := by
  by_cases h : x.id = it.id <;> simp [h]

/-- C3: the merge of a remote "record upserted" event is idempotent:
folding the same incoming record twice leaves the store exactly as
folding it once. -/
theorem mergeOne_idem (prev : List Item) (it : Item) :
    mergeOne (mergeOne prev it) it = mergeOne prev it := by
  unfold mergeOne
  by_cases h : prev.any (fun x => decide (x.id = it.id))
  · rw [if_pos h]
    have hany : (prev.map fun x => if x.id = it.id then it else x).any
        (fun x => decide (x.id = it.id)) = true := by
      rw [List.any_map]
      refine (List.any_eq_true).2 ?_
      obtain ⟨x, hx, hpx⟩ := List.any_eq_true.1 h
      exact ⟨x, hx, by by_cases hc : x.id = it.id <;> simp [Function.comp, hc] at hpx ⊢⟩
    rw [if_pos hany, List.map_map]
    exact List.map_congr_left fun x _ => mergeOne_replace_idem x it
  · rw [if_neg h]
    have hany : (prev ++ [it]).any (fun x => decide (x.id = it.id)) = true := by
      simp [List.any_append]
    rw [if_pos hany, List.map_append]
    have hprev : (prev.map fun x => if x.id = it.id then it else x) = prev := by
      have hall : ∀ x ∈ prev, ¬(x.id = it.id) := by
        intro x hx
        have := List.any_eq_false.1 (Bool.not_eq_true _ ▸ h) x hx
        simpa using this
      calc (prev.map fun x => if x.id = it.id then it else x)
          = prev.map id := List.map_congr_left fun x hx => by simp [hall x hx]
        _ = prev := List.map_id prev
    rw [hprev]
    simp

/-- C10: decrement-then-increment through `adjustQty` is not the
identity at the zero boundary: for the matching record the round trip
restores the original quantity exactly when it was ≥ 1, and a record
at quantity 0 ends at quantity 1. -/
theorem adjustQty_down_up (items : List Item) (id : Int) (autoStatus : Bool)
    (low : Int) (now now' : Nat) (k : Nat) (src : Item)
    (hk : items[k]? = some src) (hid : src.id = id) :
    ∃ dst, (adjustQty (adjustQty items id (-1) autoStatus low now)
        id 1 autoStatus low now')[k]? = some dst
      ∧ (dst.qty = src.qty ↔ 1 ≤ src.qty)
      ∧ (src.qty = 0 → dst.qty = 1) := by
  have hmid := adjustQty_getElem items id (-1) autoStatus low now k src hk
  rw [if_pos hid] at hmid
  have hdst := adjustQty_getElem _ id 1 autoStatus low now' k _ hmid
  have hmidid : ({ src with
      qty := max 0 (src.qty + -1)
      status := (if autoStatus then computeStatus (max 0 (src.qty + -1)) low
        else src.status)
      lastUpdated := some now } : Item).id = id := hid
  rw [if_pos hmidid] at hdst
  refine ⟨_, hdst, ?_, fun h0 => ?_⟩
  · show max 0 (max 0 (src.qty + -1) + 1) = src.qty ↔ 1 ≤ src.qty
    omega
  · show max 0 (max 0 (src.qty + -1) + 1) = 1
    omega

/-- Witness for C10: the round trip at a record of quantity 0 ends at
quantity 1. -/
theorem adjustQty_down_up_witness :
    ([⟨1, "c", "n", 0, "u", .empty, "l", none, none⟩] : List Item)[0]?
        = some ⟨1, "c", "n", 0, "u", .empty, "l", none, none⟩
    ∧ ((⟨1, "c", "n", 0, "u", .empty, "l", none, none⟩ : Item).id = 1)
    ∧ ∃ dst,
        (adjustQty (adjustQty [⟨1, "c", "n", 0, "u", .empty, "l", none, none⟩]
            1 (-1) true 1 7) 1 1 true 1 8)[0]? = some dst
        ∧ (dst.qty = (⟨1, "c", "n", 0, "u", .empty, "l", none, none⟩ : Item).qty
            ↔ 1 ≤ (⟨1, "c", "n", 0, "u", .empty, "l", none, none⟩ : Item).qty)
        ∧ ((⟨1, "c", "n", 0, "u", .empty, "l", none, none⟩ : Item).qty = 0 → dst.qty = 1) :=
  ⟨by decide, by decide,
    adjustQty_down_up _ 1 true 1 7 8 0 _ (by decide) (by decide)⟩

/-- JavaScript `String.prototype.toLowerCase`, restricted to the
ASCII case mapping relevant here: lowercase every character. -/
def jsToLower (s : String) : String := ⟨s.data.map Char.toLower⟩

/-- JavaScript `String.prototype.trim`: strip leading and trailing
whitespace. -/
def jsTrim (s : String) : String :=
  ⟨((s.data.dropWhile Char.isWhitespace).reverse.dropWhile Char.isWhitespace).reverse⟩

/-- The handler `addMember()` from `inventory.ts`, as a function of the current
roster and the typed name: trims the input, silently ignores an empty
result, rejects a case-insensitive duplicate with the alert message
`"มีชื่อนี้อยู่แล้ว"`, otherwise appends the trimmed name. Returns the
new roster and the alert message, if any. -/
def addMember (checkers : List String) (newMember : String) :
    List String × Option String :=
  let name := jsTrim newMember
  if name = "" then (checkers, none)
  else if checkers.any (fun c => decide (jsToLower c = jsToLower name)) then
    (checkers, some "มีชื่อนี้อยู่แล้ว")
  else (checkers ++ [name], none)

/-- C5 (amended): when the trimmed new name is nonempty and matches
some stored roster entry up to ASCII case (the code lowercases the
roster entries as stored, but trims only the input), the addition is
rejected with the user-facing message and the roster is unchanged. -/
theorem addMember_duplicate_rejected (checkers : List String) (newMember : String)
    (h1 : ¬ jsTrim newMember = "")
    (h2 : checkers.any (fun c => decide (jsToLower c = jsToLower (jsTrim newMember))) = true) :
    addMember checkers newMember = (checkers, some "มีชื่อนี้อยู่แล้ว") := by
  unfold addMember
  rw [if_neg h1, if_pos h2]

/-- Witness for C5: roster `["Ann", "Bo"]`, adding `"ann"` is rejected
and the roster is unchanged. -/
theorem addMember_duplicate_rejected_witness :
    (¬ jsTrim "ann" = "")
    ∧ (["Ann", "Bo"] : List String).any
        (fun c => decide (jsToLower c = jsToLower (jsTrim "ann"))) = true
    ∧ addMember ["Ann", "Bo"] "ann" = (["Ann", "Bo"], some "มีชื่อนี้อยู่แล้ว") :=
  ⟨by decide, by decide, addMember_duplicate_rejected _ _ (by decide) (by decide)⟩

/-- Counterexample to C5 as stated: the roster entry `"a "` carries a
trailing space, the new name `"A "` equals it up to ASCII case, yet
`addMember` appends the trimmed `"A"` (no rejection, roster changed),
because the duplicate check lowercases roster entries as stored while
the input has been trimmed. -/
theorem addMember_untrimmed_roster_cex :
    jsToLower "A " = jsToLower "a "
    ∧ addMember ["a "] "A " = (["a ", "A"], none) := by
  constructor <;> decide

/-- The store invariant of the spec: every record's quantity is
non-negative. -/
def itemsNonneg (items : List Item) : Prop := ∀ i ∈ items, 0 ≤ i.qty

instance (items : List Item) : Decidable (itemsNonneg items) :=
  inferInstanceAs (Decidable (∀ i ∈ items, 0 ≤ i.qty))

/-- C6 (amended): on a store of non-negative quantities, a quantity
adjustment, a checker confirmation (for a target taken from the
store), and a delete all preserve non-negativity unconditionally; the
Merge Engine's fold of a remote insert/update event preserves it only
when the incoming row's quantity is itself non-negative — `rowToItem`
does no clamping. -/
theorem store_qty_nonneg_preserved (items : List Item) (h : itemsNonneg items) :
    (∀ (id delta : Int) (autoStatus : Bool) (low : Int) (now : Nat),
        itemsNonneg (adjustQty items id delta autoStatus low now))
    ∧ (∀ target ∈ items, ∀ (list : List String) (now : Nat),
        itemsNonneg (confirmQuickCheck items target list now))
    ∧ (∀ id : Int, itemsNonneg (removeItem items id))
    ∧ (∀ r : Row, 0 ≤ r.qty → itemsNonneg (mergeOne items (rowToItem r))) := by
  refine ⟨?_, ?_, ?_, ?_⟩
  · intro id delta autoStatus low now i hi
    unfold adjustQty at hi
    obtain ⟨j, hj, rfl⟩ := List.mem_map.1 hi
    by_cases hjid : j.id = id
    · simp only [if_pos hjid]
      exact le_max_left 0 _
    · simp only [if_neg hjid]
      exact h j hj
  · intro target htarget list now i hi
    unfold confirmQuickCheck at hi
    obtain ⟨j, hj, rfl⟩ := List.mem_map.1 hi
    by_cases hjid : j.id = target.id
    · simp only [if_pos hjid]
      exact h target htarget
    · simp only [if_neg hjid]
      exact h j hj
  · intro id i hi
    exact h i (List.mem_of_mem_filter hi)
  · intro r hr i hi
    unfold mergeOne at hi
    by_cases hex : items.any (fun x => decide (x.id = (rowToItem r).id))
    · rw [if_pos hex] at hi
      obtain ⟨j, hj, rfl⟩ := List.mem_map.1 hi
      by_cases hjid : j.id = (rowToItem r).id
      · rw [if_pos hjid]
        exact hr
      · rw [if_neg hjid]
        exact h j hj
    · rw [if_neg hex] at hi
      rcases List.mem_append.1 hi with hj | hj
      · exact h i hj
      · rcases List.mem_singleton.1 hj with rfl
        exact hr

/-- Witness for C6 (amended) at a concrete one-record store. -/
theorem store_qty_nonneg_preserved_witness :
    itemsNonneg [⟨1, "c", "n", 0, "u", .empty, "l", none, none⟩]
    ∧ ((∀ (id delta : Int) (autoStatus : Bool) (low : Int) (now : Nat),
          itemsNonneg (adjustQty [⟨1, "c", "n", 0, "u", .empty, "l", none, none⟩]
            id delta autoStatus low now))
      ∧ (∀ target ∈ ([⟨1, "c", "n", 0, "u", .empty, "l", none, none⟩] : List Item),
          ∀ (list : List String) (now : Nat),
          itemsNonneg (confirmQuickCheck [⟨1, "c", "n", 0, "u", .empty, "l", none, none⟩]
            target list now))
      ∧ (∀ id : Int,
          itemsNonneg (removeItem [⟨1, "c", "n", 0, "u", .empty, "l", none, none⟩] id))
      ∧ (∀ r : Row, 0 ≤ r.qty →
          itemsNonneg (mergeOne [⟨1, "c", "n", 0, "u", .empty, "l", none, none⟩]
            (rowToItem r)))) :=
  ⟨by decide, store_qty_nonneg_preserved _ (by decide)⟩

/-- Counterexample to C6 as stated: folding a remote upsert event
whose row carries quantity −1 into a store satisfying the invariant
produces a store that violates it — the merge path does not clamp. -/
theorem merge_negative_qty_cex :
    itemsNonneg [⟨1, "c", "n", 0, "u", .empty, "l", none, none⟩]
    ∧ ¬ itemsNonneg (mergeOne [⟨1, "c", "n", 0, "u", .empty, "l", none, none⟩]
        (rowToItem ⟨2, "c", "m", -1, "u", .empty, "l", none, none⟩)) := by
  constructor <;> decide

/-- The expression `Array.from(new Set(l))` on strings: JavaScript `Set` keeps the
first occurrence of each element, in insertion order. -/
def jsSetDedup (l : List String) : List String :=
  l.foldl (fun acc x => if x ∈ acc then acc else acc ++ [x]) []

/-- The realtime `checkers` INSERT handler of `InventoryApp`:
`prev => Array.from(new Set([...prev, r.name]))`. -/
def checkersInsert (prev : List String) (name : String) : List String :=
  jsSetDedup (prev ++ [name])

/-- Folding the JS-`Set` insertion step over a duplicate-free list
disjoint from the accumulator just appends the list. -/
theorem jsSetDedup_foldl_of_nodup :
    ∀ (l acc : List String), l.Nodup → (∀ x ∈ l, x ∉ acc) →
      l.foldl (fun acc x => if x ∈ acc then acc else acc ++ [x]) acc = acc ++ l
  | [], acc, _, _ => by simp
  | a :: l, acc, hnd, hdisj => by
    rw [List.foldl_cons, if_neg (hdisj a (List.mem_cons_self a l))]
    rw [jsSetDedup_foldl_of_nodup l (acc ++ [a]) (List.Nodup.of_cons hnd)
      (fun x hx => by
        rcases List.nodup_cons.1 hnd with ⟨ha, -⟩
        intro hmem
        rcases List.mem_append.1 hmem with hc | hc
        · exact hdisj x (List.mem_cons_of_mem a hx) hc
        · rcases List.mem_singleton.1 hc with rfl
          exact ha hx)]
    simp

/-- C7: on a duplicate-free roster, the realtime "checker added"
handler is a case-sensitive set union — the incoming name is appended
exactly when no exactly-equal name is already present (so names
differing only in letter case are kept as distinct entries). -/
theorem checkersInsert_union (prev : List String) (name : String)
    (h : prev.Nodup) :
    checkersInsert prev name = if name ∈ prev then prev else prev ++ [name] := by
  unfold checkersInsert jsSetDedup
  rw [List.foldl_append, jsSetDedup_foldl_of_nodup prev [] h (by simp)]
  simp only [List.nil_append, List.foldl_cons, List.foldl_nil]

/-- Witness for C7: roster `["Ann", "Bo"]` with incoming `"ann"` — a
case variant of `"Ann"` — is a union on exact equality, so `"ann"` is
appended. -/
theorem checkersInsert_union_witness :
    (["Ann", "Bo"] : List String).Nodup
    ∧ checkersInsert ["Ann", "Bo"] "ann"
        = (if "ann" ∈ (["Ann", "Bo"] : List String) then ["Ann", "Bo"]
            else ["Ann", "Bo"] ++ ["ann"]) :=
  ⟨by decide, checkersInsert_union _ _ (by decide)⟩

/-- Contiguous-substring test on character lists: `sub` occurs inside
the list. -/
def charsIncludes (sub : List Char) : List Char → Bool
  | [] => sub.isEmpty
  | a :: t => sub.isPrefixOf (a :: t) || charsIncludes sub t

/-- JavaScript `String.prototype.includes`: `jsIncludes s sub` is
whether `sub` occurs contiguously in `s`. -/
def jsIncludes (s sub : String) : Bool := charsIncludes sub.data s.data

/-- The sort keys of the table, `SortKey = keyof Item` in the source. -/
inductive SortKey where
  | id
  | category
  | name
  | qty
  | unit
  | status
  | location
  | checkedBy
  | lastUpdated
deriving DecidableEq

/-- The comparator `cmp` of `filterAndSort`: numeric comparison for
`qty` and `id`, instant comparison for `lastUpdated` (missing sorts
as epoch 0), and the Thai-locale string comparison — the
uninterpreted parameter `strCmp` — for every other key, where an
absent `checkedBy` stringifies to `""` and a list to its
comma-join; `asc` negates the result. -/
def cmp (strCmp : String → String → Int) (key : SortKey) (asc : Bool)
    (a b : Item) : Int :=
  match key with
  | .qty => let res := a.qty - b.qty; if asc then res else -res
  | .id => let res := a.id - b.id; if asc then res else -res
  | .lastUpdated =>
      let tA : Int := (a.lastUpdated.getD 0 : Nat)
      let tB : Int := (b.lastUpdated.getD 0 : Nat)
      let res := tA - tB
      if asc then res else -res
  | .category => let res := strCmp a.category b.category; if asc then res else -res
  | .name => let res := strCmp a.name b.name; if asc then res else -res
  | .unit => let res := strCmp a.unit b.unit; if asc then res else -res
  | .location => let res := strCmp a.location b.location; if asc then res else -res
  | .status =>
      let res := strCmp (statusText a.status) (statusText b.status)
      if asc then res else -res
  | .checkedBy =>
      let res := strCmp (String.intercalate "," (a.checkedBy.getD []))
        (String.intercalate "," (b.checkedBy.getD []))
      if asc then res else -res

/-- The filter record of `filterAndSort`. `none` stands for an unset
field; for category, status and location the sentinel `"ทั้งหมด"`
("all") also disables the filter, as in the source. -/
structure Filters where
  q : Option String
  category : Option String
  status : Option Status
  location : Option String
  onlyLow : Bool

/-- Free-text stage of `filterAndSort`: keep records whose lowercased
name, category or location contains the lowercased query. -/
def filterQuery (q : Option String) (l : List Item) : List Item :=
  let qq := jsToLower (q.getD "")
  l.filter fun i =>
    jsIncludes (jsToLower i.name) qq || jsIncludes (jsToLower i.category) qq
      || jsIncludes (jsToLower i.location) qq

/-- Exact-match category stage of `filterAndSort` (disabled on the
sentinel `"ทั้งหมด"`). -/
def filterCategory (c : Option String) (l : List Item) : List Item :=
  if c.getD "ทั้งหมด" ≠ "ทั้งหมด" then
    l.filter (fun i => decide (i.category = c.getD "ทั้งหมด"))
  else l

/-- Exact-match status stage of `filterAndSort` (`none` is the
sentinel `"ทั้งหมด"`). -/
def filterStatus (s : Option Status) (l : List Item) : List Item :=
  match s with
  | some s => l.filter (fun i => decide (i.status = s))
  | none => l

/-- Exact-match location stage of `filterAndSort` (disabled on the
sentinel `"ทั้งหมด"`). -/
def filterLocation (c : Option String) (l : List Item) : List Item :=
  if c.getD "ทั้งหมด" ≠ "ทั้งหมด" then
    l.filter (fun i => decide (i.location = c.getD "ทั้งหมด"))
  else l

/-- The "only near-empty/empty" stage of `filterAndSort`: when the
flag is on, keep records whose status is not ปกติ. -/
def filterOnlyLow (b : Bool) (l : List Item) : List Item :=
  if b then l.filter (fun i => decide (i.status ≠ .normal)) else l

/-- The filter pipeline of `filterAndSort`, in source order. -/
def applyFilters (items : List Item) (f : Filters) : List Item :=
  filterOnlyLow f.onlyLow
    (filterLocation f.location
      (filterStatus f.status
        (filterCategory f.category
          (filterQuery f.q items))))

/-- The query engine `filterAndSort(items, filters, sort)` from `inventory.ts`: the
filter pipeline followed by `[...out].sort(cmp)`, modelled by the
stable `List.mergeSort` with `le a b := cmp a b ≤ 0`. -/
def filterAndSort (strCmp : String → String → Int) (items : List Item)
    (f : Filters) (key : SortKey) (asc : Bool) : List Item :=
  List.mergeSort (applyFilters items f)
    (fun a b => decide (cmp strCmp key asc a b ≤ 0))

theorem filterQuery_sublist (q : Option String) (l : List Item) :
    (filterQuery q l).Sublist l := List.filter_sublist l

theorem filterCategory_sublist (c : Option String) (l : List Item) :
    (filterCategory c l).Sublist l := by
  unfold filterCategory
  by_cases hc : c.getD "ทั้งหมด" ≠ "ทั้งหมด"
  · rw [if_pos hc]; exact List.filter_sublist l
  · rw [if_neg hc]

theorem filterStatus_sublist (s : Option Status) (l : List Item) :
    (filterStatus s l).Sublist l := by
  cases s with
  | none => exact List.Sublist.refl l
  | some s => exact List.filter_sublist l

theorem filterLocation_sublist (c : Option String) (l : List Item) :
    (filterLocation c l).Sublist l := by
  unfold filterLocation
  by_cases hc : c.getD "ทั้งหมด" ≠ "ทั้งหมด"
  · rw [if_pos hc]; exact List.filter_sublist l
  · rw [if_neg hc]

theorem filterOnlyLow_sublist (b : Bool) (l : List Item) :
    (filterOnlyLow b l).Sublist l := by
  unfold filterOnlyLow
  cases b with
  | false => simp
  | true => simp only [if_pos rfl]; exact List.filter_sublist l

/-- The whole filter pipeline returns a sublist of its input. -/
theorem applyFilters_sublist (items : List Item) (f : Filters) :
    (applyFilters items f).Sublist items :=
  ((((filterOnlyLow_sublist _ _).trans
    (filterLocation_sublist _ _)).trans
    (filterStatus_sublist _ _)).trans
    (filterCategory_sublist _ _)).trans
    (filterQuery_sublist _ _)

theorem mem_filterCategory {c : Option String} {l : List Item} {i : Item}
    (h : i ∈ filterCategory c l) :
    i ∈ l ∧ ∀ s, c = some s → s ≠ "ทั้งหมด" → i.category = s := by
  unfold filterCategory at h
  by_cases hc : c.getD "ทั้งหมด" ≠ "ทั้งหมด"
  · rw [if_pos hc] at h
    refine ⟨List.mem_of_mem_filter h, fun s hs _ => ?_⟩
    have hp := List.of_mem_filter h
    have := of_decide_eq_true hp
    rwa [hs, Option.getD_some] at this
  · rw [if_neg hc] at h
    push_neg at hc
    refine ⟨h, fun s hs hne => absurd ?_ hne⟩
    rwa [hs, Option.getD_some] at hc

theorem mem_filterStatus {s : Option Status} {l : List Item} {i : Item}
    (h : i ∈ filterStatus s l) :
    i ∈ l ∧ ∀ x, s = some x → i.status = x := by
  cases s with
  | none => exact ⟨by simpa [filterStatus] using h, fun x hx => by cases hx⟩
  | some y =>
      simp only [filterStatus] at h
      refine ⟨List.mem_of_mem_filter h, fun x hx => ?_⟩
      cases hx
      have hp := List.of_mem_filter h
      exact of_decide_eq_true hp

theorem mem_filterLocation {c : Option String} {l : List Item} {i : Item}
    (h : i ∈ filterLocation c l) :
    i ∈ l ∧ ∀ s, c = some s → s ≠ "ทั้งหมด" → i.location = s := by
  unfold filterLocation at h
  by_cases hc : c.getD "ทั้งหมด" ≠ "ทั้งหมด"
  · rw [if_pos hc] at h
    refine ⟨List.mem_of_mem_filter h, fun s hs _ => ?_⟩
    have hp := List.of_mem_filter h
    have := of_decide_eq_true hp
    rwa [hs, Option.getD_some] at this
  · rw [if_neg hc] at h
    push_neg at hc
    refine ⟨h, fun s hs hne => absurd ?_ hne⟩
    rwa [hs, Option.getD_some] at hc

theorem mem_filterOnlyLow {b : Bool} {l : List Item} {i : Item}
    (h : i ∈ filterOnlyLow b l) :
    i ∈ l ∧ (b = true → i.status ≠ .normal) := by
  unfold filterOnlyLow at h
  cases b with
  | false => exact ⟨by simpa using h, fun hb => by cases hb⟩
  | true =>
      rw [if_pos rfl] at h
      have hp := List.of_mem_filter h
      exact ⟨List.mem_of_mem_filter h, fun _ => of_decide_eq_true hp⟩

/-- C4: every record output by the query engine is an element of the
input, and satisfies every active exact-match filter (category,
status, location) as well as the only-non-normal flag; this holds for
every filter combination, every sort key and direction, and every
string collation. -/
theorem filterAndSort_subset (strCmp : String → String → Int) (items : List Item)
    (f : Filters) (key : SortKey) (asc : Bool) (i : Item)
    (h : i ∈ filterAndSort strCmp items f key asc) :
    i ∈ items
    ∧ (∀ c, f.category = some c → c ≠ "ทั้งหมด" → i.category = c)
    ∧ (∀ s, f.status = some s → i.status = s)
    ∧ (∀ l, f.location = some l → l ≠ "ทั้งหมด" → i.location = l)
    ∧ (f.onlyLow = true → i.status ≠ .normal) := by
  unfold filterAndSort at h
  rw [List.mem_mergeSort] at h
  unfold applyFilters at h
  obtain ⟨h, hOnly⟩ := mem_filterOnlyLow h
  obtain ⟨h, hLoc⟩ := mem_filterLocation h
  obtain ⟨h, hStat⟩ := mem_filterStatus h
  obtain ⟨h, hCat⟩ := mem_filterCategory h
  exact ⟨(filterQuery_sublist f.q items).mem h, hCat, hStat, hLoc, hOnly⟩

/-- Witness for C4 on a two-record store with the category, status,
location and only-non-normal filters all active. -/
theorem filterAndSort_subset_witness :
    ((⟨1, "c", "n", 0, "u", .empty, "l", none, none⟩ : Item)
        ∈ filterAndSort (fun _ _ => 0)
          [⟨1, "c", "n", 0, "u", .empty, "l", none, none⟩,
            ⟨2, "d", "m", 5, "u", .normal, "l", none, none⟩]
          ⟨some "n", some "c", some .empty, some "l", true⟩ .qty true)
    ∧ ((⟨1, "c", "n", 0, "u", .empty, "l", none, none⟩ : Item)
          ∈ [⟨1, "c", "n", 0, "u", .empty, "l", none, none⟩,
              ⟨2, "d", "m", 5, "u", .normal, "l", none, none⟩]
        ∧ (∀ c, (⟨some "n", some "c", some .empty, some "l", true⟩ : Filters).category
              = some c → c ≠ "ทั้งหมด" →
            (⟨1, "c", "n", 0, "u", .empty, "l", none, none⟩ : Item).category = c)
        ∧ (∀ s, (⟨some "n", some "c", some .empty, some "l", true⟩ : Filters).status
              = some s →
            (⟨1, "c", "n", 0, "u", .empty, "l", none, none⟩ : Item).status = s)
        ∧ (∀ l, (⟨some "n", some "c", some .empty, some "l", true⟩ : Filters).location
              = some l → l ≠ "ทั้งหมด" →
            (⟨1, "c", "n", 0, "u", .empty, "l", none, none⟩ : Item).location = l)
        ∧ ((⟨some "n", some "c", some .empty, some "l", true⟩ : Filters).onlyLow = true →
            (⟨1, "c", "n", 0, "u", .empty, "l", none, none⟩ : Item).status ≠ .normal)) :=
  ⟨by rw [filterAndSort, List.mem_mergeSort]; decide,
    filterAndSort_subset (fun _ _ => 0)
      [⟨1, "c", "n", 0, "u", .empty, "l", none, none⟩,
        ⟨2, "d", "m", 5, "u", .normal, "l", none, none⟩]
      ⟨some "n", some "c", some .empty, some "l", true⟩ .qty true
      ⟨1, "c", "n", 0, "u", .empty, "l", none, none⟩
      (by rw [filterAndSort, List.mem_mergeSort]; decide)⟩

/-- A `mergeSort` under a comparator that is `decide (key a ≤ key b)`
up to propositional equality sorts by `key`. -/
theorem mergeSort_sorted_by_key (key : Item → Int) (le : Item → Item → Bool)
    (hle : ∀ a b, le a b = decide (key a ≤ key b)) (l : List Item) :
    (List.mergeSort l le).Pairwise (fun a b => key a ≤ key b) := by
  have htrans : ∀ a b c : Item, le a b → le b c → le a c := by
    intro a b c hab hbc
    rw [hle] at hab hbc ⊢
    exact decide_eq_true (le_trans (of_decide_eq_true hab) (of_decide_eq_true hbc))
  have htotal : ∀ a b : Item, le a b || le b a := by
    intro a b
    rw [hle, hle]
    rcases le_total (key a) (key b) with h | h
    · simp [h]
    · simp [h]
  have hs := List.sorted_mergeSort htrans htotal l
  exact hs.imp fun hab => of_decide_eq_true ((hle _ _) ▸ hab)

/-- C8: on a collection whose records have pairwise distinct
quantities, sorting by quantity descending is exactly the reverse of
sorting by quantity ascending (same filters, same collation). -/
theorem filterAndSort_qty_desc_reverse (strCmp : String → String → Int)
    (items : List Item) (f : Filters)
    (hd : items.Pairwise (fun a b => a.qty ≠ b.qty)) :
    filterAndSort strCmp items f .qty false
      = (filterAndSort strCmp items f .qty true).reverse := by
  unfold filterAndSort
  have hdL : (applyFilters items f).Pairwise (fun a b : Item => a.qty ≠ b.qty) :=
    List.Pairwise.sublist (applyFilters_sublist items f) hd
  set L := applyFilters items f with hL
  have sortedA := mergeSort_sorted_by_key (fun i => i.qty)
    (fun a b => decide (cmp strCmp .qty true a b ≤ 0))
    (fun a b => decide_eq_decide.mpr
      (by show a.qty - b.qty ≤ 0 ↔ a.qty ≤ b.qty; omega)) L
  have sortedD := mergeSort_sorted_by_key (fun i => -i.qty)
    (fun a b => decide (cmp strCmp .qty false a b ≤ 0))
    (fun a b => decide_eq_decide.mpr
      (by show -(a.qty - b.qty) ≤ 0 ↔ -a.qty ≤ -b.qty; omega)) L
  have permA := List.mergeSort_perm L
    (fun a b => decide (cmp strCmp .qty true a b ≤ 0))
  have permD := List.mergeSort_perm L
    (fun a b => decide (cmp strCmp .qty false a b ≤ 0))
  have hdA := permA.symm.pairwise hdL (fun h => Ne.symm h)
  have hdD := permD.symm.pairwise hdL (fun h => Ne.symm h)
  have strictD : (List.mergeSort L
      (fun a b => decide (cmp strCmp .qty false a b ≤ 0))).Pairwise
      (fun a b : Item => b.qty < a.qty) :=
    (sortedD.and hdD).imp fun h => by omega
  have strictRevA : ((List.mergeSort L
      (fun a b => decide (cmp strCmp .qty true a b ≤ 0))).reverse).Pairwise
      (fun a b : Item => b.qty < a.qty) := by
    rw [List.pairwise_reverse]
    exact (sortedA.and hdA).imp fun h => by omega
  have hperm : List.Perm
      (List.mergeSort L (fun a b => decide (cmp strCmp .qty false a b ≤ 0)))
      ((List.mergeSort L (fun a b => decide (cmp strCmp .qty true a b ≤ 0))).reverse) :=
    permD.trans (permA.symm.trans (List.reverse_perm _).symm)
  haveI : IsAntisymm Item (fun a b : Item => b.qty < a.qty) :=
    ⟨fun a b h1 h2 => absurd h2 (by omega)⟩
  exact List.eq_of_perm_of_sorted hperm strictD strictRevA

/-- Witness for C8: two records with distinct quantities. -/
theorem filterAndSort_qty_desc_reverse_witness :
    ([⟨1, "c", "n", 0, "u", .empty, "l", none, none⟩,
      ⟨2, "d", "m", 5, "u", .normal, "l", none, none⟩] : List Item).Pairwise
        (fun a b => a.qty ≠ b.qty)
    ∧ filterAndSort (fun _ _ => 0)
        [⟨1, "c", "n", 0, "u", .empty, "l", none, none⟩,
          ⟨2, "d", "m", 5, "u", .normal, "l", none, none⟩]
        ⟨none, none, none, none, false⟩ .qty false
      = (filterAndSort (fun _ _ => 0)
          [⟨1, "c", "n", 0, "u", .empty, "l", none, none⟩,
            ⟨2, "d", "m", 5, "u", .normal, "l", none, none⟩]
          ⟨none, none, none, none, false⟩ .qty true).reverse :=
  ⟨by decide, filterAndSort_qty_desc_reverse _ _ _ (by decide)⟩

/-- The query pipeline as it executes in JavaScript, with array
aliasing made explicit: the heap is a list of arrays and `r` the
index of the caller's input array. The filter stages allocate fresh
intermediate arrays, the spread `[...out]` allocates a copy at the
fresh reference `st.length`, and `.sort(cmp)` then mutates that copy
in place; the copy's reference is returned. -/
def filterAndSortJS (strCmp : String → String → Int) (st : List (List Item))
    (r : Nat) (f : Filters) (key : SortKey) (asc : Bool) :
    List (List Item) × Nat :=
  let out := applyFilters (st.getD r []) f
  let copyRef := st.length
  let st1 := st ++ [out]
  let st2 := st1.set copyRef (List.mergeSort (st1.getD copyRef [])
    (fun a b => decide (cmp strCmp key asc a b ≤ 0)))
  (st2, copyRef)

/-- C9: the query engine never mutates its input: after the call the
input array holds the same records in the same order as before, and
the returned (fresh) reference holds exactly the pure
filter-and-sort of the input. -/
theorem filterAndSortJS_frame (strCmp : String → String → Int)
    (st : List (List Item)) (r : Nat) (f : Filters) (key : SortKey) (asc : Bool)
    (h : r < st.length) :
    (filterAndSortJS strCmp st r f key asc).1.getD r [] = st.getD r []
    ∧ (filterAndSortJS strCmp st r f key asc).1.getD
        (filterAndSortJS strCmp st r f key asc).2 []
      = filterAndSort strCmp (st.getD r []) f key asc := by
  have hout : (st ++ [applyFilters (st.getD r []) f]).getD st.length []
      = applyFilters (st.getD r []) f := by
    rw [List.getD_eq_getElem?_getD, List.getElem?_concat_length]
    rfl
  unfold filterAndSortJS
  constructor
  · rw [List.getD_eq_getElem?_getD, List.getElem?_set_ne (Nat.ne_of_gt h),
      List.getElem?_append_left h, ← List.getD_eq_getElem?_getD]
  · rw [List.getD_eq_getElem?_getD,
      List.getElem?_set_self (by simp), Option.getD_some, hout]
    rfl

/-- Witness for C9 on a one-array heap. -/
theorem filterAndSortJS_frame_witness :
    0 < ([[⟨1, "c", "n", 0, "u", .empty, "l", none, none⟩]] : List (List Item)).length
    ∧ ((filterAndSortJS (fun _ _ => 0)
          [[⟨1, "c", "n", 0, "u", .empty, "l", none, none⟩]]
          0 ⟨none, none, none, none, false⟩ .qty true).1.getD 0 []
        = ([[⟨1, "c", "n", 0, "u", .empty, "l", none, none⟩]] : List (List Item)).getD 0 []
      ∧ (filterAndSortJS (fun _ _ => 0)
            [[⟨1, "c", "n", 0, "u", .empty, "l", none, none⟩]]
            0 ⟨none, none, none, none, false⟩ .qty true).1.getD
          (filterAndSortJS (fun _ _ => 0)
            [[⟨1, "c", "n", 0, "u", .empty, "l", none, none⟩]]
            0 ⟨none, none, none, none, false⟩ .qty true).2 []
        = filterAndSort (fun _ _ => 0)
            (([[⟨1, "c", "n", 0, "u", .empty, "l", none, none⟩]] :
              List (List Item)).getD 0 [])
            ⟨none, none, none, none, false⟩ .qty true) :=
  ⟨by decide, filterAndSortJS_frame _ _ _ _ _ _ (by decide)⟩

end Inventory
